/-
Verification of the reference-index construction and merge workflow of the
2022-esip-kerchunk-tutorial repository.

The notebooks call an external reference-generation library
(SingleHdf5ToZarr / MultiZarrToZarr) whose internals are not part of this
repository; the specification describes the contract of those components
(Single-File Index Builder, Multi-File Index Merger, Index-Backed Virtual
Reader, serialization) abstractly.  Those components are therefore modelled
from the spec below.  The function get_xy_from_latlon is real code of this
repository (second notebook) and is embedded directly from the source.
-/
import Mathlib

set_option linter.unusedVariables false

/-! ## Data model (spec section 3) -/

/-- One addressable unit of data within a source file.  Following the spec's
design note, ChunkRef is a sum type: exactly one of (offset, length) or an
inline payload is present, by construction. -/
inductive ChunkRef where
  | inlineValue (value : List Nat)
  | byteRange (path : String) (offset : Nat) (length : Nat)
deriving DecidableEq

/-- Does this reference carry an inline payload? -/
def ChunkRef.hasInline : ChunkRef → Bool
  | .inlineValue _ => true
  | .byteRange _ _ _ => false

/-- Does this reference carry a byte-range pointer? -/
def ChunkRef.hasByteRange : ChunkRef → Bool
  | .inlineValue _ => false
  | .byteRange _ _ _ => true

/-- Array metadata of one variable: dimension names, shape, chunk grid shape,
data type, fill value, compression identifier, attributes. -/
structure VarMeta where
  dims : List String
  shape : List Nat
  chunkShape : List Nat
  dtype : String
  fillValue : Option Int
  compressor : Option String
  attrs : List (String × String)
deriving DecidableEq

/-- A variable's metadata plus the mapping from chunk-grid coordinate to
ChunkRef, as an association list. -/
structure VariableIndex where
  meta : VarMeta
  chunks : List (List Nat × ChunkRef)
deriving DecidableEq

/-- One file's full set of VariableIndex entries plus global attributes and
dimension-size declarations. -/
structure FileIndex where
  path : String
  dims : List (String × Nat)
  attrs : List (String × String)
  vars : List (String × VariableIndex)
deriving DecidableEq

/-- The union of several FileIndex instances stitched along one concatenation
dimension, with merge-level provenance metadata (number of inputs, concat
dimension). -/
structure CombinedIndex where
  dims : List (String × Nat)
  attrs : List (String × String)
  vars : List (String × VariableIndex)
  numInputs : Nat
  concatDim : String
deriving DecidableEq

/-! ## Chunk Locator output (spec section 4.1) -/

/-- One chunk located inside a source file: logical chunk coordinate plus the
byte range where its payload lives. -/
structure RawChunk where
  coord : List Nat
  offset : Nat
  length : Nat
deriving DecidableEq

/-- Chunk Locator output for one variable. -/
structure RawVariable where
  name : String
  meta : VarMeta
  chunks : List RawChunk
deriving DecidableEq

/-- Chunk Locator output for one whole file. -/
structure LocatorOutput where
  dims : List (String × Nat)
  attrs : List (String × String)
  vars : List RawVariable
deriving DecidableEq

/-! ## Single-File Index Builder (spec section 4.2)

Modelled from the spec: the builder (SingleHdf5ToZarr(...).translate() in the
notebook, with inline_threshold=300) lives in the external kerchunk library.
Per the spec: for each chunk, if length is at most the inline threshold, read
the chunk bytes eagerly and store them inline; otherwise store
(path, offset, length). -/

/-- The bytes of a file at a given byte range (a file is a byte list). -/
def sliceBytes (file : List Nat) (offset length : Nat) : List Nat :=
  (file.drop offset).take length

/-- Modelled from the spec: build one reference for one located chunk. -/
def buildChunkRef (file : List Nat) (path : String) (inlineThreshold : Nat)
    (c : RawChunk) : ChunkRef :=
  if c.length ≤ inlineThreshold then
    ChunkRef.inlineValue (sliceBytes file c.offset c.length)
  else
    ChunkRef.byteRange path c.offset c.length

/-- Modelled from the spec: the Single-File Index Builder.  Consumes the Chunk
Locator's output for one file plus the source path and an inline threshold and
produces one FileIndex (gen_ref in the first notebook delegates to this). -/
def singleHdf5ToZarr (file : List Nat) (path : String) (inlineThreshold : Nat)
    (loc : LocatorOutput) : FileIndex :=
  { path := path
    dims := loc.dims
    attrs := loc.attrs
    vars := loc.vars.map (fun rv =>
      (rv.name,
       { meta := rv.meta
         chunks := rv.chunks.map (fun c =>
           (c.coord, buildChunkRef file path inlineThreshold c)) })) }

/-! ## Index-Backed Virtual Reader (spec section 4.4) -/

/-- Ceiling division, used to derive the chunk-grid extent of one axis. -/
def ceilDiv (a b : Nat) : Nat := (a + b - 1) / b

/-- The chunk grid implied by a variable's shape and chunk shape. -/
def gridShape (m : VarMeta) : List Nat :=
  List.zipWith ceilDiv m.shape m.chunkShape

/-- Is a chunk coordinate inside a chunk grid? -/
def inGrid (coord grid : List Nat) : Bool :=
  coord.length == grid.length &&
    (List.zip coord grid).all (fun p => p.1 < p.2)

/-- Result of resolving one chunk coordinate: either an inline payload or a
(source locator, offset, length) triple. -/
inductive ReadResult where
  | inlineData (value : List Nat)
  | byteRange (path : String) (offset : Nat) (length : Nat)
deriving DecidableEq

/-- Read-time errors of the Virtual Reader. -/
inductive ReadError where
  | variableNotFound (name : String)
  | coordinateOutOfRange (name : String) (coord : List Nat)
  | chunkNotFound (name : String) (coord : List Nat)
deriving DecidableEq

/-- Project a stored ChunkRef to the reader's result form. -/
def refToResult : ChunkRef → ReadResult
  | .inlineValue v => .inlineData v
  | .byteRange p o l => .byteRange p o l

/-- Modelled from the spec: the Index-Backed Virtual Reader.  Resolves a
variable name and logical chunk coordinate against a variable table, failing
with coordinateOutOfRange outside the chunk grid and with chunkNotFound at an
unpopulated in-grid position. -/
def resolveVars (vars : List (String × VariableIndex)) (name : String)
    (coord : List Nat) : Except ReadError ReadResult :=
  match List.lookup name vars with
  | none => .error (.variableNotFound name)
  | some vi =>
    if inGrid coord (gridShape vi.meta) then
      match List.lookup coord vi.chunks with
      | some ref => .ok (refToResult ref)
      | none => .error (.chunkNotFound name coord)
    else
      .error (.coordinateOutOfRange name coord)

/-- Reader over a single-file index. -/
def FileIndex.resolve (fi : FileIndex) : String → List Nat → Except ReadError ReadResult :=
  resolveVars fi.vars

/-- Reader over a combined index. -/
def CombinedIndex.resolve (ci : CombinedIndex) : String → List Nat → Except ReadError ReadResult :=
  resolveVars ci.vars

/-! ## Multi-File Index Merger (spec section 4.3)

Modelled from the spec: MultiZarrToZarr of the external kerchunk library,
called in the first notebook with concat_dims='t'.  Variables are partitioned
into concatenated (depend on the concat dimension) and invariant; invariant
variables must agree structurally across all inputs and are taken from the
first input; concatenated variables have their chunk coordinates renumbered
along the concat axis into one contiguous grid, each ChunkRef otherwise kept
unchanged; ordering is the natural order of the supplied input list. -/

/-- Merge-time errors. -/
inductive MergeError where
  | emptyInput
  | dimensionMismatch (path : String)
  | schemaConflict (path : String) (varName : String)
deriving DecidableEq

/-- A variable depends on the concat dimension iff that dimension occurs among
its dimension names. -/
def isConcatVar (d : String) (m : VarMeta) : Bool :=
  m.dims.contains d

/-- Position of the concat dimension among a variable's dimension names. -/
def concatAxis (d : String) (m : VarMeta) : Nat :=
  m.dims.indexOf d

/-- Shape with the concat axis blanked out, for off-axis comparison. -/
def shapeOffAxis (axis : Nat) (shape : List Nat) : List Nat :=
  shape.set axis 0

/-- Are two metas of a concatenated variable compatible: equal in every
respect except the shape entry on the concat axis? -/
def concatCompatible (d : String) (m1 m2 : VarMeta) : Bool :=
  m1.dims == m2.dims && m1.chunkShape == m2.chunkShape &&
  m1.dtype == m2.dtype && m1.fillValue == m2.fillValue &&
  m1.compressor == m2.compressor && m1.attrs == m2.attrs &&
  shapeOffAxis (concatAxis d m1) m1.shape == shapeOffAxis (concatAxis d m1) m2.shape

/-- Scan one later input against the first input's variable table; report the
first variable whose schema conflicts (missing, or unequal where equality is
required). -/
def findConflictWith (d : String) (first other : FileIndex) : Option String :=
  first.vars.findSome? (fun p =>
    match List.lookup p.1 other.vars with
    | none => some p.1
    | some vi2 =>
      if isConcatVar d p.2.meta then
        if concatCompatible d p.2.meta vi2.meta then none else some p.1
      else
        if p.2.meta == vi2.meta then none else some p.1)

/-- Scan all later inputs for a schema conflict; report the offending file's
path and the conflicting variable name. -/
def findConflictList (d : String) (first : FileIndex) : List FileIndex → Option (String × String)
  | [] => none
  | fi :: rest =>
    match findConflictWith d first fi with
    | some name => some (fi.path, name)
    | none => findConflictList d first rest

/-- Report the first input that does not declare the concat dimension. -/
def findMissingDim (d : String) : List FileIndex → Option String
  | [] => none
  | fi :: rest =>
    if (List.lookup d fi.dims).isSome then findMissingDim d rest else some fi.path

/-- Renumber a chunk coordinate: shift its component on the concat axis. -/
def bumpCoord (axis shift : Nat) (coord : List Nat) : List Nat :=
  coord.set axis (coord.getD axis 0 + shift)

/-- Chunk-grid extent of a variable along the concat axis. -/
def gridCount (axis : Nat) (m : VarMeta) : Nat :=
  (gridShape m).getD axis 0

/-- Stitch the chunk tables of one concatenated variable across the inputs,
renumbering coordinates along the concat axis into one contiguous grid and
keeping every ChunkRef unchanged. -/
def concatChunks (name : String) (axis : Nat) : Nat → List FileIndex → List (List Nat × ChunkRef)
  | _, [] => []
  | shift, fi :: rest =>
    match List.lookup name fi.vars with
    | none => concatChunks name axis shift rest
    | some vi =>
      vi.chunks.map (fun p => (bumpCoord axis shift p.1, p.2)) ++
        concatChunks name axis (shift + gridCount axis vi.meta) rest

/-- Total extent of a concatenated variable's shape along the concat axis,
summed over the inputs. -/
def totalVarShape (name : String) (axis : Nat) (inputs : List FileIndex) : Nat :=
  (inputs.map (fun fi =>
    match List.lookup name fi.vars with
    | some vi => vi.meta.shape.getD axis 0
    | none => 0)).sum

/-- Total declared size of the concat dimension, summed over the inputs. -/
def totalDimSize (d : String) (inputs : List FileIndex) : Nat :=
  (inputs.map (fun fi => (List.lookup d fi.dims).getD 0)).sum

/-- Assemble the CombinedIndex once all consistency checks have passed:
invariant variables are taken unchanged from the first input; concatenated
variables get the stitched chunk table and the summed shape on the concat
axis; the concat dimension's declared size is the sum over the inputs. -/
def buildCombined (d : String) (first : FileIndex) (rest : List FileIndex) : CombinedIndex :=
  let inputs := first :: rest
  { dims := first.dims.map (fun p =>
      if p.1 == d then (p.1, totalDimSize d inputs) else p)
    attrs := first.attrs
    numInputs := inputs.length
    concatDim := d
    vars := first.vars.map (fun p =>
      (p.1,
       if isConcatVar d p.2.meta then
         { meta := { p.2.meta with
                     shape := p.2.meta.shape.set (concatAxis d p.2.meta)
                       (totalVarShape p.1 (concatAxis d p.2.meta) inputs) }
           chunks := concatChunks p.1 (concatAxis d p.2.meta) 0 inputs }
       else p.2)) }

/-- Modelled from the spec: the Multi-File Index Merger (MultiZarrToZarr).
Validates the inputs (non-empty, concat dimension declared everywhere, no
schema conflict) and then assembles the CombinedIndex; any failure aborts the
whole merge with an error and no CombinedIndex. -/
def multiZarrToZarr (inputs : List FileIndex) (d : String) : Except MergeError CombinedIndex :=
  match inputs with
  | [] => .error .emptyInput
  | first :: rest =>
    match findMissingDim d (first :: rest) with
    | some path => .error (.dimensionMismatch path)
    | none =>
      match findConflictList d first rest with
      | some pc => .error (.schemaConflict pc.1 pc.2)
      | none => .ok (buildCombined d first rest)

/-- Promote one FileIndex directly to a CombinedIndex (the trivial merge of a
single input). -/
def promoteFileIndex (fi : FileIndex) (d : String) : CombinedIndex :=
  { dims := fi.dims
    attrs := fi.attrs
    vars := fi.vars
    numInputs := 1
    concatDim := d }

/-! ## Combined-index serialization (spec section 6)

Modelled from the spec: the notebook writes the reference dictionary with
ujson.dumps and reads it back with ujson.load; the spec requires a
self-describing plaintext structured document whose round trip is lossless
for all ChunkRef fields. -/

/-- A plaintext structured document: numbers, strings, sequences. -/
inductive Doc where
  | num (n : Int)
  | str (s : String)
  | arr (items : List Doc)

def encodeNat (n : Nat) : Doc := .num n

def decodeNat : Doc → Option Nat
  | .num n => if 0 ≤ n then some n.toNat else none
  | _ => none

def encodeInt (n : Int) : Doc := .num n

def decodeInt : Doc → Option Int
  | .num n => some n
  | _ => none

def encodeString (s : String) : Doc := .str s

def decodeString : Doc → Option String
  | .str s => some s
  | _ => none

def encodeList {α : Type} (f : α → Doc) (l : List α) : Doc := .arr (l.map f)

def decodeListAux {α : Type} (f : Doc → Option α) : List Doc → Option (List α)
  | [] => some []
  | d :: ds => (f d).bind fun a => (decodeListAux f ds).map (fun l => a :: l)

def decodeList {α : Type} (f : Doc → Option α) : Doc → Option (List α)
  | .arr items => decodeListAux f items
  | _ => none

def encodeOption {α : Type} (f : α → Doc) : Option α → Doc
  | none => .arr []
  | some a => .arr [f a]

def decodeOption {α : Type} (f : Doc → Option α) : Doc → Option (Option α)
  | .arr [] => some none
  | .arr [d] => (f d).map some
  | _ => none

def encodePair {α β : Type} (f : α → Doc) (g : β → Doc) (p : α × β) : Doc :=
  .arr [f p.1, g p.2]

def decodePair {α β : Type} (f : Doc → Option α) (g : Doc → Option β) : Doc → Option (α × β)
  | .arr [da, db] =>
    (f da).bind fun a => (g db).bind fun b => some (a, b)
  | _ => none

def encodeChunkRef : ChunkRef → Doc
  | .inlineValue v => .arr [.str "base64", encodeList encodeNat v]
  | .byteRange p o l => .arr [.str "range", .str p, encodeNat o, encodeNat l]

def decodeChunkRef : Doc → Option ChunkRef
  | .arr [.str tag, v] =>
    if tag = "base64" then (decodeList decodeNat v).map ChunkRef.inlineValue
    else none
  | .arr [.str tag, .str p, dOff, dLen] =>
    if tag = "range" then
      (decodeNat dOff).bind fun o => (decodeNat dLen).bind fun l =>
        some (ChunkRef.byteRange p o l)
    else none
  | _ => none

def encodeVarMeta (m : VarMeta) : Doc :=
  .arr [encodeList encodeString m.dims,
        encodeList encodeNat m.shape,
        encodeList encodeNat m.chunkShape,
        .str m.dtype,
        encodeOption encodeInt m.fillValue,
        encodeOption encodeString m.compressor,
        encodeList (encodePair encodeString encodeString) m.attrs]

def decodeVarMeta : Doc → Option VarMeta
  | .arr [d1, d2, d3, .str dt, d5, d6, d7] =>
    (decodeList decodeString d1).bind fun dims =>
    (decodeList decodeNat d2).bind fun shape =>
    (decodeList decodeNat d3).bind fun chunkShape =>
    (decodeOption decodeInt d5).bind fun fillValue =>
    (decodeOption decodeString d6).bind fun compressor =>
    (decodeList (decodePair decodeString decodeString) d7).bind fun attrs =>
      some { dims := dims, shape := shape, chunkShape := chunkShape,
             dtype := dt, fillValue := fillValue, compressor := compressor,
             attrs := attrs }
  | _ => none

def encodeVariableIndex (vi : VariableIndex) : Doc :=
  .arr [encodeVarMeta vi.meta,
        encodeList (encodePair (encodeList encodeNat) encodeChunkRef) vi.chunks]

def decodeVariableIndex : Doc → Option VariableIndex
  | .arr [dm, dc] =>
    (decodeVarMeta dm).bind fun m =>
    (decodeList (decodePair (decodeList decodeNat) decodeChunkRef) dc).bind fun chunks =>
      some { meta := m, chunks := chunks }
  | _ => none

/-- Modelled from the spec: serialize a CombinedIndex to its plaintext
structured-document form. -/
def encodeCombinedIndex (ci : CombinedIndex) : Doc :=
  .arr [encodeList (encodePair encodeString encodeNat) ci.dims,
        encodeList (encodePair encodeString encodeString) ci.attrs,
        encodeList (encodePair encodeString encodeVariableIndex) ci.vars,
        encodeNat ci.numInputs,
        .str ci.concatDim]

/-- Modelled from the spec: deserialize a plaintext structured document back
to a CombinedIndex. -/
def decodeCombinedIndex : Doc → Option CombinedIndex
  | .arr [d1, d2, d3, d4, .str cd] =>
    (decodeList (decodePair decodeString decodeNat) d1).bind fun dims =>
    (decodeList (decodePair decodeString decodeString) d2).bind fun attrs =>
    (decodeList (decodePair decodeString decodeVariableIndex) d3).bind fun vars =>
    (decodeNat d4).bind fun numInputs =>
      some { dims := dims, attrs := attrs, vars := vars,
             numInputs := numInputs, concatDim := cd }
  | _ => none

/-! ## get_xy_from_latlon (second notebook)

Embedded from the source: the function meshgrids the 1-D x and y coordinate
arrays over the 2-D latitude/longitude grids, restricts them to the grid
points whose latitude and longitude fall inside the requested box, and
returns (min x, max x, min y, max y).  Python's builtin min/max raise on an
empty selection, so the embedding is Option-valued. -/

/-- The four coordinate arrays of the dataset that the function touches. -/
structure Dataset where
  latitude : List (List Int)
  longitude : List (List Int)
  x : List Int
  y : List Int
deriving DecidableEq

/-- np.meshgrid(x, y) first component: one copy of x per y entry. -/
def meshgridX (ds : Dataset) : List (List Int) :=
  ds.y.map (fun _ => ds.x)

/-- np.meshgrid(x, y) second component: each row is the y entry repeated. -/
def meshgridY (ds : Dataset) : List (List Int) :=
  ds.y.map (fun yv => ds.x.map (fun _ => yv))

/-- The source's mask condition at one grid point:
(lat >= lat1) & (lat <= lat2) & (lon >= lon1) & (lon <= lon2). -/
def inBoxPoint (lat1 lat2 lon1 lon2 la lo : Int) : Bool :=
  decide (lat1 ≤ la) && decide (la ≤ lat2) &&
  decide (lon1 ≤ lo) && decide (lo ≤ lon2)

/-- One row of the boolean mask. -/
def maskRow (lat1 lat2 lon1 lon2 : Int) (latRow lonRow : List Int) : List Bool :=
  List.zipWith (inBoxPoint lat1 lat2 lon1 lon2) latRow lonRow

/-- The whole boolean mask over the latitude/longitude grids. -/
def boxMask (ds : Dataset) (lat1 lat2 lon1 lon2 : Int) : List (List Bool) :=
  List.zipWith (maskRow lat1 lat2 lon1 lon2) ds.latitude ds.longitude

/-- Boolean-mask selection within one row (numpy fancy indexing, row-wise). -/
def maskSelect : List Bool → List Int → List Int
  | b :: ms, v :: vs => if b then v :: maskSelect ms vs else maskSelect ms vs
  | _, _ => []

/-- Boolean-mask selection over the whole grid, row-major. -/
def selectGrid : List (List Bool) → List (List Int) → List Int
  | m :: ms, g :: gs => maskSelect m g ++ selectGrid ms gs
  | _, _ => []

/-- Python's builtin min over a sequence (none on empty). -/
def listMin : List Int → Option Int
  | [] => none
  | v :: vs => some (vs.foldl min v)

/-- Python's builtin max over a sequence (none on empty). -/
def listMax : List Int → Option Int
  | [] => none
  | v :: vs => some (vs.foldl max v)

/-- Embedded from the source (second notebook): return the x/y range of the
grid points inside the given lat/lon box; none when the selection is empty
(where the Python code raises from min() on an empty array). -/
def get_xy_from_latlon (ds : Dataset) (lats lons : Int × Int) :
    Option (Int × Int × Int × Int) :=
  let mask := boxMask ds lats.1 lats.2 lons.1 lons.2
  let xsel := selectGrid mask (meshgridX ds)
  let ysel := selectGrid mask (meshgridY ds)
  match listMin xsel, listMax xsel, listMin ysel, listMax ysel with
  | some x1, some x2, some y1, some y2 => some (x1, x2, y1, y2)
  | _, _, _, _ => none

/-! ## Well-formedness invariants (spec section 3) -/

/-- The VariableIndex invariant of the spec: conforming metadata lengths,
distinct chunk coordinates, and every coordinate inside the chunk grid. -/
def WellFormedVar (vi : VariableIndex) : Prop :=
  vi.meta.dims.length = vi.meta.shape.length ∧
  vi.meta.shape.length = vi.meta.chunkShape.length ∧
  (vi.chunks.map Prod.fst).Nodup ∧
  ∀ p ∈ vi.chunks, inGrid p.1 (gridShape vi.meta) = true

/-- A well-formed FileIndex: distinct dimension names, distinct variable
names, and well-formed variables. -/
def WellFormedIndex (fi : FileIndex) : Prop :=
  (fi.dims.map Prod.fst).Nodup ∧
  (fi.vars.map Prod.fst).Nodup ∧
  ∀ p ∈ fi.vars, WellFormedVar p.2

instance (vi : VariableIndex) : Decidable (WellFormedVar vi) := by
  unfold WellFormedVar; exact inferInstance

instance (fi : FileIndex) : Decidable (WellFormedIndex fi) := by
  unfold WellFormedIndex; exact inferInstance

deriving instance DecidableEq for Except

/-- A genuine schema conflict between the first input and a later input at a
named variable: the variable is present in the first input and the later
input either lacks it or disagrees with it where agreement is required. -/
def conflictAt (d : String) (first other : FileIndex) (name : String) : Prop :=
  ∃ vi, (name, vi) ∈ first.vars ∧
    (List.lookup name other.vars = none ∨
     ∃ vi2, List.lookup name other.vars = some vi2 ∧
       ((isConcatVar d vi.meta = true ∧ concatCompatible d vi.meta vi2.meta = false) ∨
        (isConcatVar d vi.meta = false ∧ vi.meta ≠ vi2.meta)))

/-! ## Concrete example data

The spec's example scenario: three single-variable FileIndex objects, each
declaring dimension t of size 1, plus an identical invariant variable x of
shape (5,). -/

/-- Metadata of the concatenated example variable (dimension t, size 1). -/
def exMetaData : VarMeta :=
  { dims := ["t"], shape := [1], chunkShape := [1], dtype := "f4",
    fillValue := none, compressor := none, attrs := [] }

/-- Metadata of the invariant example variable x of shape (5,). -/
def exMetaX : VarMeta :=
  { dims := ["i"], shape := [5], chunkShape := [5], dtype := "f4",
    fillValue := none, compressor := none, attrs := [] }

/-- One example input file index, with the byte range of its data chunk. -/
def exInput (p : String) (off : Nat) : FileIndex :=
  { path := p
    dims := [("t", 1), ("i", 5)]
    attrs := [("title", "goes")]
    vars := [("data", { meta := exMetaData, chunks := [([0], .byteRange p off 50)] }),
             ("x", { meta := exMetaX, chunks := [([0], .byteRange p 0 40)] })] }

def exF0 : FileIndex := exInput "f0.nc" 100

def exF1 : FileIndex := exInput "f1.nc" 200

def exF2 : FileIndex := exInput "f2.nc" 300

/-- The combined index the spec's example scenario expects: dimension t of
size 3, chunk coordinates renumbered to (0,), (1,), (2,), the invariant
variable x taken unchanged from the first input. -/
def exCombined : CombinedIndex :=
  { dims := [("t", 3), ("i", 5)]
    attrs := [("title", "goes")]
    vars := [("data",
              { meta := { exMetaData with shape := [3] }
                chunks := [([0], .byteRange "f0.nc" 100 50),
                           ([1], .byteRange "f1.nc" 200 50),
                           ([2], .byteRange "f2.nc" 300 50)] }),
             ("x", { meta := exMetaX, chunks := [([0], .byteRange "f0.nc" 0 40)] })]
    numInputs := 3
    concatDim := "t" }

/-- An input whose invariant variable x has a conflicting dtype. -/
def exBadF1 : FileIndex :=
  { path := "bad.nc"
    dims := [("t", 1), ("i", 5)]
    attrs := [("title", "goes")]
    vars := [("data", { meta := exMetaData, chunks := [([0], .byteRange "bad.nc" 200 50)] }),
             ("x", { meta := { exMetaX with dtype := "f8" },
                     chunks := [([0], .byteRange "bad.nc" 0 40)] })] }

/-- Example variable whose chunk grid has size 3 along its only axis, with
only the first two positions populated. -/
def exGridVI : VariableIndex :=
  { meta := { dims := ["t"], shape := [3], chunkShape := [1], dtype := "f4",
              fillValue := none, compressor := none, attrs := [] }
    chunks := [([0], .byteRange "g.nc" 0 10), ([1], .byteRange "g.nc" 10 10)] }

/-- Example variable table holding just that variable. -/
def exGridVars : List (String × VariableIndex) :=
  [("v", exGridVI)]

/-- A small located chunk (length 3, at or below an inline threshold of 5). -/
def exChunkSmall : RawChunk := { coord := [0], offset := 2, length := 3 }

/-- A large located chunk (length 10, above an inline threshold of 5). -/
def exChunkBig : RawChunk := { coord := [1], offset := 5, length := 10 }

/-- Example located variable with one small and one large chunk. -/
def exRawV : RawVariable :=
  { name := "v"
    meta := { dims := ["t"], shape := [2], chunkShape := [1], dtype := "f4",
              fillValue := none, compressor := none, attrs := [] }
    chunks := [exChunkSmall, exChunkBig] }

/-- Example Chunk Locator output: one variable with a small chunk (length 3)
and a large chunk (length 10). -/
def exLoc : LocatorOutput :=
  { dims := [("t", 2)]
    attrs := []
    vars := [exRawV] }

/-- Example source file: twenty bytes 0..19. -/
def exFile : List Nat := List.range 20

/-- Example dataset with one grid point at latitude 10, longitude 20. -/
def exDS : Dataset :=
  { latitude := [[10]], longitude := [[20]], x := [7], y := [3] }

/-! ## Helper lemmas -/

theorem lookup_eq_some_of_mem_nodup {α β : Type} [BEq α] [LawfulBEq α]
    {l : List (α × β)} {a : α} {b : β}
    (h : (a, b) ∈ l) (hnd : (l.map Prod.fst).Nodup) :
    List.lookup a l = some b := by
  induction l with
  | nil => cases h
  | cons hd tl ih =>
    obtain ⟨k, v⟩ := hd
    simp only [List.map_cons, List.nodup_cons] at hnd
    rcases List.mem_cons.mp h with heq | hmem
    · cases heq
      simp [List.lookup_cons]
    · have hne : (a == k) = false := by
        apply beq_false_of_ne
        intro he
        exact hnd.1 (he ▸ List.mem_map_of_mem Prod.fst hmem)
      rw [List.lookup_cons]
      simp only [hne]
      exact ih hmem hnd.2

theorem mem_of_lookup_eq_some {α β : Type} [BEq α] [LawfulBEq α]
    {l : List (α × β)} {a : α} {b : β}
    (h : List.lookup a l = some b) : (a, b) ∈ l := by
  induction l with
  | nil => cases h
  | cons hd tl ih =>
    obtain ⟨k, v⟩ := hd
    rw [List.lookup_cons] at h
    cases hak : a == k with
    | true =>
      rw [hak] at h
      cases h
      have : a = k := eq_of_beq hak
      subst this
      exact List.mem_cons_self _ _
    | false =>
      rw [hak] at h
      exact List.mem_cons_of_mem _ (ih h)

theorem set_getD_self : ∀ (l : List Nat) (i : Nat), l.set i (l.getD i 0) = l := by
  intro l
  induction l with
  | nil => intro i; simp
  | cons hd tl ih =>
    intro i
    cases i with
    | zero => simp [List.getD]
    | succ j => simp only [List.set, List.getD_cons_succ]; rw [ih]

theorem inGrid_spec {c g : List Nat} (h : inGrid c g = true) :
    c.length = g.length ∧ ∀ i, i < c.length → c.getD i 0 < g.getD i 0 := by
  unfold inGrid at h
  simp only [Bool.and_eq_true, beq_iff_eq, List.all_eq_true, decide_eq_true_eq] at h
  obtain ⟨h1, h2⟩ := h
  refine ⟨h1, fun i hi => ?_⟩
  have hig : i < g.length := h1 ▸ hi
  have hzl : i < (List.zip c g).length := by
    rw [List.length_zip]
    omega
  have hmem := List.getElem_mem hzl
  have hp := h2 _ hmem
  rw [List.getElem_zip] at hp
  rw [List.getD_eq_getElem c 0 hi, List.getD_eq_getElem g 0 hig]
  exact hp

theorem gridShape_length (m : VarMeta) :
    (gridShape m).length = min m.shape.length m.chunkShape.length := by
  simp [gridShape, List.length_zipWith]

theorem bumpCoord_length (axis s : Nat) (c : List Nat) :
    (bumpCoord axis s c).length = c.length := by
  simp [bumpCoord, List.length_set]

theorem bumpCoord_getD_axis {axis : Nat} {c : List Nat} (h : axis < c.length) (s : Nat) :
    (bumpCoord axis s c).getD axis 0 = c.getD axis 0 + s := by
  unfold bumpCoord
  have hlt : axis < (c.set axis (c.getD axis 0 + s)).length := by
    rw [List.length_set]; exact h
  rw [List.getD_eq_getElem _ _ hlt, List.getElem_set_self]

theorem bumpCoord_getD_ne {axis j : Nat} (hne : j ≠ axis) (s : Nat) (c : List Nat) :
    (bumpCoord axis s c).getD j 0 = c.getD j 0 := by
  unfold bumpCoord
  generalize c.getD axis 0 + s = v
  by_cases hj : j < c.length
  · have hlt : j < (c.set axis v).length := by
      rw [List.length_set]; exact hj
    rw [List.getD_eq_getElem _ _ hlt, List.getD_eq_getElem _ _ hj,
        List.getElem_set_ne (Ne.symm hne)]
  · have h1 : (c.set axis v).length ≤ j := by
      rw [List.length_set]; omega
    have h2 : c.length ≤ j := by omega
    rw [List.getD_eq_getElem?_getD, List.getD_eq_getElem?_getD,
        List.getElem?_eq_none h1, List.getElem?_eq_none h2]

theorem bumpCoord_zero (axis : Nat) (c : List Nat) :
    bumpCoord axis 0 c = c := by
  unfold bumpCoord
  rw [Nat.add_zero]
  exact set_getD_self c axis

theorem bumpCoord_inj {axis s : Nat} {c1 c2 : List Nat}
    (h1 : axis < c1.length) (h2 : axis < c2.length)
    (he : bumpCoord axis s c1 = bumpCoord axis s c2) : c1 = c2 := by
  have hl : c1.length = c2.length := by
    have := congrArg List.length he
    simpa [bumpCoord_length] using this
  apply List.ext_getElem hl
  intro i hi1 hi2
  by_cases hax : i = axis
  · subst hax
    have := congrArg (fun l => l.getD i 0) he
    simp only [bumpCoord_getD_axis h1, bumpCoord_getD_axis h2] at this
    have heq : c1.getD i 0 = c2.getD i 0 := by omega
    rw [List.getD_eq_getElem _ _ hi1, List.getD_eq_getElem _ _ hi2] at heq
    exact heq
  · have := congrArg (fun l => l.getD i 0) he
    simp only [bumpCoord_getD_ne hax] at this
    rw [List.getD_eq_getElem _ _ hi1, List.getD_eq_getElem _ _ hi2] at this
    exact this

theorem multiZarr_ok_inv {inputs : List FileIndex} {d : String} {ci : CombinedIndex}
    (hok : multiZarrToZarr inputs d = .ok ci) :
    ∃ first rest, inputs = first :: rest ∧
      findMissingDim d (first :: rest) = none ∧
      findConflictList d first rest = none ∧
      ci = buildCombined d first rest := by
  cases inputs with
  | nil => simp [multiZarrToZarr] at hok
  | cons first rest =>
    refine ⟨first, rest, rfl, ?_⟩
    simp only [multiZarrToZarr] at hok
    cases hm : findMissingDim d (first :: rest) with
    | some p => rw [hm] at hok; cases hok
    | none =>
      rw [hm] at hok
      cases hc : findConflictList d first rest with
      | some pc => rw [hc] at hok; cases hok
      | none =>
        rw [hc] at hok
        exact ⟨rfl, rfl, (Except.ok.inj hok).symm⟩

theorem findMissingDim_none {d : String} :
    ∀ {l : List FileIndex}, findMissingDim d l = none →
      ∀ fi ∈ l, (List.lookup d fi.dims).isSome = true := by
  intro l
  induction l with
  | nil => intro _ fi hfi; cases hfi
  | cons hd tl ih =>
    intro h fi hfi
    unfold findMissingDim at h
    by_cases hs : (List.lookup d hd.dims).isSome = true
    · rw [if_pos hs] at h
      rcases List.mem_cons.mp hfi with rfl | hmem
      · exact hs
      · exact ih h fi hmem
    · rw [if_neg hs] at h
      cases h

theorem findMissingDim_none_of {d : String} :
    ∀ {l : List FileIndex}, (∀ fi ∈ l, (List.lookup d fi.dims).isSome = true) →
      findMissingDim d l = none := by
  intro l
  induction l with
  | nil => intro _; rfl
  | cons hd tl ih =>
    intro h
    unfold findMissingDim
    rw [if_pos (h hd (List.mem_cons_self _ _))]
    exact ih (fun fi hfi => h fi (List.mem_cons_of_mem _ hfi))

theorem findConflictList_none {d : String} {first : FileIndex} :
    ∀ {rest : List FileIndex}, findConflictList d first rest = none →
      ∀ fi ∈ rest, findConflictWith d first fi = none := by
  intro rest
  induction rest with
  | nil => intro _ fi hfi; cases hfi
  | cons hd tl ih =>
    intro h fi hfi
    unfold findConflictList at h
    cases hc : findConflictWith d first hd with
    | some nm => rw [hc] at h; cases h
    | none =>
      rw [hc] at h
      rcases List.mem_cons.mp hfi with rfl | hmem
      · exact hc
      · exact ih h fi hmem

theorem findConflictWith_none {d : String} {first other : FileIndex}
    (h : findConflictWith d first other = none) :
    ∀ p ∈ first.vars, ∃ vi2, List.lookup p.1 other.vars = some vi2 ∧
      (isConcatVar d p.2.meta = true → concatCompatible d p.2.meta vi2.meta = true) ∧
      (isConcatVar d p.2.meta = false → p.2.meta = vi2.meta) := by
  intro p hp
  unfold findConflictWith at h
  have hf := List.findSome?_eq_none_iff.mp h p hp
  cases hlk : List.lookup p.1 other.vars with
  | none => rw [hlk] at hf; cases hf
  | some vi2 =>
    rw [hlk] at hf
    refine ⟨vi2, rfl, ?_, ?_⟩
    · intro hcv
      rw [hcv] at hf
      simp only [if_true] at hf
      by_cases hcc : concatCompatible d p.2.meta vi2.meta = true
      · exact hcc
      · rw [if_neg hcc] at hf; cases hf
    · intro hcv
      rw [hcv] at hf
      simp only [Bool.false_eq_true, if_false] at hf
      by_cases hme : (p.2.meta == vi2.meta) = true
      · exact eq_of_beq hme
      · rw [if_neg hme] at hf; cases hf

theorem concatChunks_nil (name : String) (axis s : Nat) :
    concatChunks name axis s [] = [] := rfl

theorem concatChunks_cons_none {name : String} {axis s : Nat} {fi : FileIndex}
    {rest : List FileIndex} (hlk : List.lookup name fi.vars = none) :
    concatChunks name axis s (fi :: rest) = concatChunks name axis s rest := by
  simp only [concatChunks, hlk]

theorem concatChunks_cons_some {name : String} {axis s : Nat} {fi : FileIndex}
    {rest : List FileIndex} {vi : VariableIndex}
    (hlk : List.lookup name fi.vars = some vi) :
    concatChunks name axis s (fi :: rest) =
      vi.chunks.map (fun p => (bumpCoord axis s p.1, p.2)) ++
        concatChunks name axis (s + gridCount axis vi.meta) rest := by
  simp only [concatChunks, hlk]

theorem concatChunks_facts (name : String) (axis : Nat) :
    ∀ (inputs : List FileIndex) (s : Nat),
    (∀ fi ∈ inputs, ∀ vi, List.lookup name fi.vars = some vi →
      ((vi.chunks.map Prod.fst).Nodup ∧
       ∀ q ∈ vi.chunks, axis < q.1.length ∧ q.1.getD axis 0 < gridCount axis vi.meta)) →
    (∀ p ∈ concatChunks name axis s inputs, s ≤ p.1.getD axis 0) ∧
    ((concatChunks name axis s inputs).map Prod.fst).Nodup := by
  intro inputs
  induction inputs with
  | nil =>
    intro s h
    constructor
    · intro p hp; rw [concatChunks_nil] at hp; cases hp
    · rw [concatChunks_nil]; exact List.nodup_nil
  | cons fi rest ih =>
    intro s h
    have hrest : ∀ f ∈ rest, ∀ vi, List.lookup name f.vars = some vi →
        ((vi.chunks.map Prod.fst).Nodup ∧
         ∀ q ∈ vi.chunks, axis < q.1.length ∧ q.1.getD axis 0 < gridCount axis vi.meta) :=
      fun f hf => h f (List.mem_cons_of_mem _ hf)
    cases hlk : List.lookup name fi.vars with
    | none =>
      rw [concatChunks_cons_none hlk]
      exact ih s hrest
    | some vi =>
      obtain ⟨hnd, hq⟩ := h fi (List.mem_cons_self _ _) vi hlk
      obtain ⟨ihb, ihn⟩ := ih (s + gridCount axis vi.meta) hrest
      rw [concatChunks_cons_some hlk]
      constructor
      · intro p hp
        rcases List.mem_append.mp hp with hp1 | hp2
        · obtain ⟨q, hqm, rfl⟩ := List.mem_map.mp hp1
          dsimp only
          have hax := (hq q hqm).1
          have := bumpCoord_getD_axis hax s
          omega
        · have := ihb p hp2
          omega
      · rw [List.map_append]
        have hblock : ((vi.chunks.map (fun p => (bumpCoord axis s p.1, p.2))).map Prod.fst)
            = (vi.chunks.map Prod.fst).map (bumpCoord axis s) := by
          simp [List.map_map, Function.comp]
        rw [hblock]
        apply List.Nodup.append
        · apply List.Nodup.map_on ?_ hnd
          intro x hx y hy hxy
          obtain ⟨qx, hqx, rfl⟩ := List.mem_map.mp hx
          obtain ⟨qy, hqy, rfl⟩ := List.mem_map.mp hy
          exact bumpCoord_inj (hq qx hqx).1 (hq qy hqy).1 hxy
        · exact ihn
        · intro a ha hb
          obtain ⟨x, hx, rfl⟩ := List.mem_map.mp ha
          obtain ⟨qx, hqx, rfl⟩ := List.mem_map.mp hx
          obtain ⟨hax, hlt⟩ := hq qx hqx
          obtain ⟨pb, hpb, hpe⟩ := List.mem_map.mp hb
          have hge := ihb pb hpb
          rw [hpe] at hge
          have := bumpCoord_getD_axis hax s
          omega

theorem concatChunks_src (name : String) (axis : Nat) :
    ∀ (inputs : List FileIndex) (s : Nat) (p : List Nat × ChunkRef),
      p ∈ concatChunks name axis s inputs →
      ∃ fi ∈ inputs, ∃ vi, List.lookup name fi.vars = some vi ∧
        ∃ c0, (c0, p.2) ∈ vi.chunks ∧ ∃ shift, p.1 = bumpCoord axis shift c0 := by
  intro inputs
  induction inputs with
  | nil => intro s p hp; rw [concatChunks_nil] at hp; cases hp
  | cons fi rest ih =>
    intro s p hp
    cases hlk : List.lookup name fi.vars with
    | none =>
      rw [concatChunks_cons_none hlk] at hp
      obtain ⟨f, hf, hres⟩ := ih s p hp
      exact ⟨f, List.mem_cons_of_mem _ hf, hres⟩
    | some vi =>
      rw [concatChunks_cons_some hlk] at hp
      rcases List.mem_append.mp hp with hp1 | hp2
      · obtain ⟨q, hqm, rfl⟩ := List.mem_map.mp hp1
        exact ⟨fi, List.mem_cons_self _ _, vi, hlk, q.1, hqm, s, rfl⟩
      · obtain ⟨f, hf, hres⟩ := ih _ p hp2
        exact ⟨f, List.mem_cons_of_mem _ hf, hres⟩

theorem concatChunks_complete (name : String) (axis : Nat) :
    ∀ (inputs : List FileIndex) (s : Nat) (fi : FileIndex), fi ∈ inputs →
      ∀ vi, List.lookup name fi.vars = some vi →
      ∀ q ∈ vi.chunks,
        ∃ shift, (bumpCoord axis shift q.1, q.2) ∈ concatChunks name axis s inputs := by
  intro inputs
  induction inputs with
  | nil => intro s fi hfi; cases hfi
  | cons hd rest ih =>
    intro s fi hfi vi hvi q hq
    rcases List.mem_cons.mp hfi with rfl | hmem
    · refine ⟨s, ?_⟩
      rw [concatChunks_cons_some hvi]
      exact List.mem_append_left _ (List.mem_map.mpr ⟨q, hq, rfl⟩)
    · cases hlk : List.lookup name hd.vars with
      | none =>
        obtain ⟨shift, hm⟩ := ih s fi hmem vi hvi q hq
        exact ⟨shift, by rw [concatChunks_cons_none hlk]; exact hm⟩
      | some vi2 =>
        obtain ⟨shift, hm⟩ := ih (s + gridCount axis vi2.meta) fi hmem vi hvi q hq
        exact ⟨shift, by
          rw [concatChunks_cons_some hlk]
          exact List.mem_append_right _ hm⟩

theorem isConcatVar_iff {d : String} {m : VarMeta} :
    isConcatVar d m = true ↔ d ∈ m.dims := by
  simp [isConcatVar, List.contains, List.elem_iff]

theorem concatAxis_lt {d : String} {m : VarMeta} (h : isConcatVar d m = true) :
    concatAxis d m < m.dims.length := by
  unfold concatAxis
  exact List.indexOf_lt_length.mpr (isConcatVar_iff.mp h)

theorem concatCompatible_dims {d : String} {m1 m2 : VarMeta}
    (h : concatCompatible d m1 m2 = true) :
    m1.dims = m2.dims ∧ m1.chunkShape = m2.chunkShape := by
  unfold concatCompatible at h
  simp only [Bool.and_eq_true, beq_iff_eq] at h
  exact ⟨h.1.1.1.1.1.1, h.1.1.1.1.1.2⟩

theorem gridShape_length_eq_dims {vi : VariableIndex}
    (hlen1 : vi.meta.dims.length = vi.meta.shape.length)
    (hlen2 : vi.meta.shape.length = vi.meta.chunkShape.length) :
    (gridShape vi.meta).length = vi.meta.dims.length := by
  rw [gridShape_length, ← hlen2, Nat.min_self, ← hlen1]

theorem mergeVarFacts {d : String} {first : FileIndex} {rest : List FileIndex}
    (hconf : findConflictList d first rest = none)
    (hwf : ∀ fi ∈ first :: rest, WellFormedIndex fi)
    {name : String} {vi1 : VariableIndex} (hmem : (name, vi1) ∈ first.vars)
    (hcv : isConcatVar d vi1.meta = true) :
    ∀ fi ∈ first :: rest, ∀ vi, List.lookup name fi.vars = some vi →
      ((vi.chunks.map Prod.fst).Nodup ∧
       ∀ q ∈ vi.chunks, concatAxis d vi1.meta < q.1.length ∧
         q.1.getD (concatAxis d vi1.meta) 0 < gridCount (concatAxis d vi1.meta) vi.meta) := by
  intro fi hfi vi hlk
  have hwfi := hwf fi hfi
  have hviwf : WellFormedVar vi := hwfi.2.2 (name, vi) (mem_of_lookup_eq_some hlk)
  obtain ⟨hlen1, hlen2, hnd, hgrid⟩ := hviwf
  have hdims : vi.meta.dims = vi1.meta.dims := by
    rcases List.mem_cons.mp hfi with rfl | hmem2
    · have hl := lookup_eq_some_of_mem_nodup hmem (hwf fi (List.mem_cons_self _ _)).2.1
      rw [hl] at hlk
      cases hlk
      rfl
    · have hcw := findConflictList_none hconf fi hmem2
      obtain ⟨vi2, hlk2, hc, _⟩ := findConflictWith_none hcw (name, vi1) hmem
      have hcc := hc hcv
      rw [hlk2] at hlk
      cases hlk
      exact ((concatCompatible_dims hcc).1).symm
  have haxis : concatAxis d vi1.meta < vi.meta.dims.length := by
    rw [hdims]
    exact concatAxis_lt hcv
  refine ⟨hnd, fun q hq => ?_⟩
  obtain ⟨hql, hqlt⟩ := inGrid_spec (hgrid q hq)
  have hgl : (gridShape vi.meta).length = vi.meta.dims.length :=
    gridShape_length_eq_dims hlen1 hlen2
  have hax : concatAxis d vi1.meta < q.1.length := by
    rw [hql, hgl]
    exact haxis
  exact ⟨hax, hqlt _ hax⟩

theorem lookup_map_dim {l : List (String × Nat)} {d : String} (T : Nat)
    (h : (List.lookup d l).isSome = true) :
    List.lookup d (l.map (fun p => if p.1 == d then (p.1, T) else p)) = some T := by
  induction l with
  | nil => simp [List.lookup] at h
  | cons hd tl ih =>
    obtain ⟨k, v⟩ := hd
    cases hdk : (d == k) with
    | true =>
      have hkd : (k == d) = true := by
        rw [beq_iff_eq] at hdk ⊢
        exact hdk.symm
      simp only [List.map_cons, hkd, if_true]
      rw [List.lookup_cons]
      simp [hdk]
    | false =>
      have hkd : (k == d) = false := by
        rw [beq_eq_false_iff_ne] at hdk ⊢
        exact fun he => hdk he.symm
      rw [List.lookup_cons, hdk] at h
      simp only [List.map_cons, hkd, Bool.false_eq_true, if_false]
      rw [List.lookup_cons]
      simp only [hdk]
      exact ih h

/-- C2: merging FileIndex inputs that pass the merger's consistency checks
produces a CombinedIndex whose concat-dimension size is the sum of the inputs'
declared sizes and in which no two chunks of any variable are assigned the
same renumbered coordinate; and on the spec's concrete scenario (three inputs,
each with dimension t of size 1 and an identical invariant variable x) the
result declares t of size 3, renumbers the concatenated variable's chunk
coordinates to (0,), (1,), (2,), and takes x unchanged from the first
input. -/
theorem C2_merge_sums_and_renumbers (inputs : List FileIndex) (d : String)
    (ci : CombinedIndex) (hok : multiZarrToZarr inputs d = .ok ci)
    (hwf : ∀ fi ∈ inputs, WellFormedIndex fi) :
    List.lookup d ci.dims = some (totalDimSize d inputs) ∧
    (∀ p ∈ ci.vars, (p.2.chunks.map Prod.fst).Nodup) ∧
    multiZarrToZarr [exF0, exF1, exF2] "t" = .ok exCombined := by
  obtain ⟨first, rest, rfl, hmd, hcf, rfl⟩ := multiZarr_ok_inv hok
  refine ⟨?_, ?_, by decide⟩
  · have hs : (List.lookup d first.dims).isSome = true :=
      findMissingDim_none hmd first (List.mem_cons_self _ _)
    simp only [buildCombined]
    exact lookup_map_dim _ hs
  · intro p hp
    simp only [buildCombined] at hp
    obtain ⟨q, hq, rfl⟩ := List.mem_map.mp hp
    by_cases hcv : isConcatVar d q.2.meta = true
    · simp only [hcv, if_true]
      have hfacts := mergeVarFacts hcf hwf hq hcv
      exact (concatChunks_facts q.1 (concatAxis d q.2.meta) (first :: rest) 0 hfacts).2
    · simp only [Bool.not_eq_true] at hcv
      simp only [hcv, Bool.false_eq_true, if_false]
      exact ((hwf first (List.mem_cons_self _ _)).2.2 q hq).2.2.1

theorem lookup_map_val {l : List (String × VariableIndex)}
    (g : String × VariableIndex → VariableIndex)
    (hnd : (l.map Prod.fst).Nodup) {p : String × VariableIndex} (hp : p ∈ l) :
    List.lookup p.1 (l.map (fun q => (q.1, g q))) = some (g p) := by
  apply lookup_eq_some_of_mem_nodup
  · exact List.mem_map_of_mem _ hp
  · have : (l.map (fun q => (q.1, g q))).map Prod.fst = l.map Prod.fst := by
      simp [List.map_map, Function.comp]
    rw [this]
    exact hnd

theorem C2_merge_sums_and_renumbers_witness :
    multiZarrToZarr [exF0, exF1, exF2] "t" = .ok exCombined ∧
    (∀ fi ∈ [exF0, exF1, exF2], WellFormedIndex fi) ∧
    (List.lookup "t" exCombined.dims = some (totalDimSize "t" [exF0, exF1, exF2]) ∧
     (∀ p ∈ exCombined.vars, (p.2.chunks.map Prod.fst).Nodup) ∧
     multiZarrToZarr [exF0, exF1, exF2] "t" = .ok exCombined) :=
  ⟨by decide, by decide,
   C2_merge_sums_and_renumbers [exF0, exF1, exF2] "t" exCombined (by decide) (by decide)⟩

/-- C3: every chunk reference carried into the CombinedIndex comes verbatim
from some input: the ChunkRef (offset, length, inline payload, source path)
is unchanged, the chunk-grid coordinate is unchanged for invariant variables,
and for concatenated variables only the component on the concat axis is
shifted (every off-axis component is unchanged).  The merge never rewrites or
copies chunk payloads. -/
theorem C3_merge_preserves_refs (inputs : List FileIndex) (d : String)
    (ci : CombinedIndex) (hok : multiZarrToZarr inputs d = .ok ci) :
    ∀ p ∈ ci.vars, ∀ q ∈ p.2.chunks,
      ∃ fi, fi ∈ inputs ∧ ∃ vi c0, (p.1, vi) ∈ fi.vars ∧ (c0, q.2) ∈ vi.chunks ∧
        (isConcatVar d p.2.meta = false → q.1 = c0) ∧
        (isConcatVar d p.2.meta = true →
          ∃ shift, q.1 = bumpCoord (concatAxis d p.2.meta) shift c0 ∧
            ∀ j, j ≠ concatAxis d p.2.meta → q.1.getD j 0 = c0.getD j 0) := by
  obtain ⟨first, rest, rfl, hmd, hcf, rfl⟩ := multiZarr_ok_inv hok
  intro p hp q hq
  simp only [buildCombined] at hp
  obtain ⟨q0, hq0, rfl⟩ := List.mem_map.mp hp
  by_cases hcv : isConcatVar d q0.2.meta = true
  · simp only [hcv, if_true] at hq ⊢
    obtain ⟨fi, hfi, vi, hlk, c0, hc0, shift, hb⟩ :=
      concatChunks_src q0.1 (concatAxis d q0.2.meta) (first :: rest) 0 q hq
    refine ⟨fi, hfi, vi, c0, mem_of_lookup_eq_some hlk, hc0, ?_, ?_⟩
    · intro hfalse
      have h2 : isConcatVar d q0.2.meta = false := hfalse
      rw [hcv] at h2
      cases h2
    · intro _
      exact ⟨shift, hb, fun j hj => by
        rw [hb]
        exact bumpCoord_getD_ne hj shift c0⟩
  · simp only [Bool.not_eq_true] at hcv
    simp only [hcv, Bool.false_eq_true, if_false] at hq ⊢
    refine ⟨first, List.mem_cons_self _ _, q0.2, q.1, hq0, hq, fun _ => rfl, ?_⟩
    intro htrue
    exact htrue.elim

theorem C3_merge_preserves_refs_witness :
    multiZarrToZarr [exF0, exF1, exF2] "t" = .ok exCombined ∧
    (∀ p ∈ exCombined.vars, ∀ q ∈ p.2.chunks,
      ∃ fi, fi ∈ [exF0, exF1, exF2] ∧ ∃ vi c0, (p.1, vi) ∈ fi.vars ∧ (c0, q.2) ∈ vi.chunks ∧
        (isConcatVar "t" p.2.meta = false → q.1 = c0) ∧
        (isConcatVar "t" p.2.meta = true →
          ∃ shift, q.1 = bumpCoord (concatAxis "t" p.2.meta) shift c0 ∧
            ∀ j, j ≠ concatAxis "t" p.2.meta → q.1.getD j 0 = c0.getD j 0)) :=
  ⟨by decide,
   C3_merge_preserves_refs [exF0, exF1, exF2] "t" exCombined (by decide)⟩

/-- C6: the merge is atomic.  It is a pure function of its inputs, so a failed
call leaves every already-built input FileIndex unchanged by construction;
and it never returns a partial CombinedIndex: whenever a CombinedIndex is
returned at all, it is complete — every invariant variable of the first input
is present unchanged, and every chunk of every input's copy of every
concatenated variable appears (renumbered) in the result. -/
theorem C6_merge_atomic (inputs : List FileIndex) (d : String)
    (ci : CombinedIndex) (hok : multiZarrToZarr inputs d = .ok ci)
    (hwf : ∀ fi ∈ inputs, WellFormedIndex fi) :
    ∃ first rest, inputs = first :: rest ∧
    ∀ p ∈ first.vars,
      (isConcatVar d p.2.meta = true →
        ∃ vi2, List.lookup p.1 ci.vars = some vi2 ∧
          ∀ fi ∈ inputs, ∀ vi, List.lookup p.1 fi.vars = some vi →
            ∀ q ∈ vi.chunks,
              ∃ shift, (bumpCoord (concatAxis d p.2.meta) shift q.1, q.2) ∈ vi2.chunks) ∧
      (isConcatVar d p.2.meta = false → List.lookup p.1 ci.vars = some p.2) := by
  obtain ⟨first, rest, rfl, hmd, hcf, rfl⟩ := multiZarr_ok_inv hok
  refine ⟨first, rest, rfl, fun p hp => ?_⟩
  have hnd : (first.vars.map Prod.fst).Nodup :=
    (hwf first (List.mem_cons_self _ _)).2.1
  have hlk := lookup_map_val
    (fun q =>
      if isConcatVar d q.2.meta then
        { meta := { q.2.meta with
                    shape := q.2.meta.shape.set (concatAxis d q.2.meta)
                      (totalVarShape q.1 (concatAxis d q.2.meta) (first :: rest)) }
          chunks := concatChunks q.1 (concatAxis d q.2.meta) 0 (first :: rest) }
      else q.2)
    hnd hp
  dsimp only at hlk
  constructor
  · intro hcv
    rw [if_pos hcv] at hlk
    refine ⟨_, hlk, ?_⟩
    intro fi hfi vi hvi q hq
    exact concatChunks_complete p.1 (concatAxis d p.2.meta) (first :: rest) 0 fi hfi vi hvi q hq
  · intro hcv
    have hneg : ¬ (isConcatVar d p.2.meta = true) := by
      rw [hcv]
      exact Bool.false_ne_true
    rw [if_neg hneg] at hlk
    exact hlk

theorem C6_merge_atomic_witness :
    multiZarrToZarr [exF0, exF1, exF2] "t" = .ok exCombined ∧
    (∀ fi ∈ [exF0, exF1, exF2], WellFormedIndex fi) ∧
    (∃ first rest, [exF0, exF1, exF2] = first :: rest ∧
     ∀ p ∈ first.vars,
       (isConcatVar "t" p.2.meta = true →
         ∃ vi2, List.lookup p.1 exCombined.vars = some vi2 ∧
           ∀ fi ∈ [exF0, exF1, exF2], ∀ vi, List.lookup p.1 fi.vars = some vi →
             ∀ q ∈ vi.chunks,
               ∃ shift, (bumpCoord (concatAxis "t" p.2.meta) shift q.1, q.2) ∈ vi2.chunks) ∧
       (isConcatVar "t" p.2.meta = false → List.lookup p.1 exCombined.vars = some p.2)) :=
  ⟨by decide, by decide,
   C6_merge_atomic [exF0, exF1, exF2] "t" exCombined (by decide) (by decide)⟩

/-- C7: merging a single well-formed FileIndex supplied as a one-element list
yields exactly the CombinedIndex obtained by promoting that FileIndex
directly (here even the provenance metadata coincides: one input, the same
concat dimension). -/
theorem C7_singleton_merge_identity (fi : FileIndex) (d : String)
    (hwf : WellFormedIndex fi) (hd : (List.lookup d fi.dims).isSome = true) :
    multiZarrToZarr [fi] d = .ok (promoteFileIndex fi d) := by
  have hmd : findMissingDim d [fi] = none := by
    apply findMissingDim_none_of
    intro f hf
    rcases List.mem_cons.mp hf with rfl | h
    · exact hd
    · cases h
  have hdims : fi.dims.map (fun p => if p.1 == d then (p.1, totalDimSize d [fi]) else p)
      = fi.dims := by
    conv_rhs => rw [← List.map_id fi.dims]
    apply List.map_congr_left
    intro a ha
    by_cases had : (a.1 == d) = true
    · rw [if_pos had]
      have had2 : a.1 = d := eq_of_beq had
      have hl : List.lookup d fi.dims = some a.2 := by
        rw [← had2]
        exact lookup_eq_some_of_mem_nodup ha hwf.1
      simp [totalDimSize, hl]
    · rw [if_neg had]
      rfl
  have hvars : fi.vars.map (fun p =>
      (p.1,
       if isConcatVar d p.2.meta then
         { meta := { p.2.meta with
                     shape := p.2.meta.shape.set (concatAxis d p.2.meta)
                       (totalVarShape p.1 (concatAxis d p.2.meta) [fi]) }
           chunks := concatChunks p.1 (concatAxis d p.2.meta) 0 [fi] }
       else p.2)) = fi.vars := by
    conv_rhs => rw [← List.map_id fi.vars]
    apply List.map_congr_left
    intro p hp
    by_cases hcv : isConcatVar d p.2.meta = true
    · rw [if_pos hcv]
      have hlkp : List.lookup p.1 fi.vars = some p.2 :=
        lookup_eq_some_of_mem_nodup hp hwf.2.1
      have htv : totalVarShape p.1 (concatAxis d p.2.meta) [fi]
          = p.2.meta.shape.getD (concatAxis d p.2.meta) 0 := by
        simp [totalVarShape, hlkp]
      have hcc : concatChunks p.1 (concatAxis d p.2.meta) 0 [fi] = p.2.chunks := by
        rw [concatChunks_cons_some hlkp, concatChunks_nil, List.append_nil]
        conv_rhs => rw [← List.map_id p.2.chunks]
        apply List.map_congr_left
        intro q hq
        rw [bumpCoord_zero]
        rfl
      rw [htv, hcc, set_getD_self]
      rfl
    · rw [if_neg hcv]
      rfl
  have hprom : buildCombined d fi [] = promoteFileIndex fi d := by
    unfold buildCombined promoteFileIndex
    dsimp only
    rw [hdims, hvars]
    rfl
  simp only [multiZarrToZarr, hmd, findConflictList]
  rw [hprom]

theorem C7_singleton_merge_identity_witness :
    WellFormedIndex exF0 ∧ (List.lookup "t" exF0.dims).isSome = true ∧
    multiZarrToZarr [exF0] "t" = .ok (promoteFileIndex exF0 "t") :=
  ⟨by decide, by decide, C7_singleton_merge_identity exF0 "t" (by decide) (by decide)⟩

theorem findConflictWith_some {d : String} {first other : FileIndex} {nm : String}
    (h : findConflictWith d first other = some nm) :
    conflictAt d first other nm := by
  unfold findConflictWith at h
  obtain ⟨p, hp, hf⟩ := List.exists_of_findSome?_eq_some h
  cases hlk : List.lookup p.1 other.vars with
  | none =>
    rw [hlk] at hf
    have hnm := Option.some.inj hf
    subst hnm
    exact ⟨p.2, hp, Or.inl hlk⟩
  | some vi2 =>
    rw [hlk] at hf
    dsimp only at hf
    cases hcv : isConcatVar d p.2.meta with
    | true =>
      rw [if_pos hcv] at hf
      cases hcc : concatCompatible d p.2.meta vi2.meta with
      | true =>
        rw [if_pos hcc] at hf
        cases hf
      | false =>
        rw [if_neg (by rw [hcc]; exact Bool.false_ne_true)] at hf
        have hnm := Option.some.inj hf
        subst hnm
        exact ⟨p.2, hp, Or.inr ⟨vi2, hlk, Or.inl ⟨hcv, hcc⟩⟩⟩
    | false =>
      rw [if_neg (by rw [hcv]; exact Bool.false_ne_true)] at hf
      cases hbe : (p.2.meta == vi2.meta) with
      | true =>
        rw [if_pos hbe] at hf
        cases hf
      | false =>
        rw [if_neg (by rw [hbe]; exact Bool.false_ne_true)] at hf
        have hnm := Option.some.inj hf
        subst hnm
        exact ⟨p.2, hp, Or.inr ⟨vi2, hlk, Or.inr ⟨hcv, ne_of_beq_false hbe⟩⟩⟩

theorem findConflictList_finds {d : String} {first : FileIndex} :
    ∀ {rest : List FileIndex},
      (∃ fi ∈ rest, findConflictWith d first fi ≠ none) →
      ∃ fi ∈ rest, ∃ nm, findConflictList d first rest = some (fi.path, nm) ∧
        findConflictWith d first fi = some nm := by
  intro rest
  induction rest with
  | nil =>
    rintro ⟨fi, hfi, _⟩
    cases hfi
  | cons hd tl ih =>
    rintro ⟨fi, hfi, hne⟩
    cases hcw : findConflictWith d first hd with
    | some nm =>
      refine ⟨hd, List.mem_cons_self _ _, nm, ?_, hcw⟩
      simp only [findConflictList, hcw]
    | none =>
      have hft : fi ∈ tl := by
        rcases List.mem_cons.mp hfi with rfl | h
        · exact absurd hcw hne
        · exact h
      obtain ⟨fi2, hfi2, nm, heq, hcw2⟩ := ih ⟨fi, hft, hne⟩
      refine ⟨fi2, List.mem_cons_of_mem _ hfi2, nm, ?_, hcw2⟩
      simp only [findConflictList, hcw]
      exact heq

/-- C5: when some invariant variable of the first input differs (in metadata:
shape, dtype, attributes, or any other structural field) from a later input,
or is missing there, the merge fails with a SchemaConflictError naming a
genuinely offending file and variable; it never silently overrides one
input's schema with another's. -/
theorem C5_schema_conflict_detected (first : FileIndex) (rest : List FileIndex)
    (d : String)
    (hdims : ∀ fi ∈ first :: rest, (List.lookup d fi.dims).isSome = true)
    (hconf : ∃ p ∈ first.vars, isConcatVar d p.2.meta = false ∧
       ∃ fi ∈ rest, ((List.lookup p.1 fi.vars).all fun vi2 => p.2.meta != vi2.meta) = true) :
    ∃ fi ∈ rest, ∃ nm,
      multiZarrToZarr (first :: rest) d = .error (.schemaConflict fi.path nm) ∧
      conflictAt d first fi nm := by
  obtain ⟨p, hp, hcv, fi, hfi, hall⟩ := hconf
  have hne : findConflictWith d first fi ≠ none := by
    intro hnone
    obtain ⟨vi2, hlk, _, hinv⟩ := findConflictWith_none hnone p hp
    have heq := hinv hcv
    rw [hlk] at hall
    simp only [Option.all] at hall
    rw [heq] at hall
    simp [bne] at hall
  obtain ⟨fi2, hfi2, nm, heq, hcw⟩ := findConflictList_finds ⟨fi, hfi, hne⟩
  refine ⟨fi2, hfi2, nm, ?_, findConflictWith_some hcw⟩
  simp only [multiZarrToZarr, findMissingDim_none_of hdims, heq]

theorem C5_schema_conflict_detected_witness :
    (∀ fi ∈ exF0 :: [exBadF1], (List.lookup "t" fi.dims).isSome = true) ∧
    (∃ p ∈ exF0.vars, isConcatVar "t" p.2.meta = false ∧
       ∃ fi ∈ [exBadF1], ((List.lookup p.1 fi.vars).all fun vi2 => p.2.meta != vi2.meta) = true) ∧
    (∃ fi ∈ [exBadF1], ∃ nm,
      multiZarrToZarr (exF0 :: [exBadF1]) "t" = .error (.schemaConflict fi.path nm) ∧
      conflictAt "t" exF0 fi nm) :=
  ⟨by decide, by decide,
   C5_schema_conflict_detected exF0 [exBadF1] "t" (by decide) (by decide)⟩

/-- C1: for every chunk processed by the Single-File Index Builder, exactly
one of the two representations is produced.  A chunk with length at most the
inline threshold is stored inline, and the inlined bytes are exactly the
source file's bytes at the chunk's offset/length; a chunk with length above
the threshold is stored as a byte range, and resolving its coordinate through
the Virtual Reader returns exactly that offset/length pair. -/
theorem C1_builder_inline_dichotomy (file : List Nat) (path : String) (thr : Nat)
    (loc : LocatorOutput)
    (hnames : (loc.vars.map RawVariable.name).Nodup)
    (rv : RawVariable) (hrv : rv ∈ loc.vars)
    (hcoords : (rv.chunks.map RawChunk.coord).Nodup)
    (c : RawChunk) (hc : c ∈ rv.chunks)
    (hg : inGrid c.coord (gridShape rv.meta) = true) :
    ∃ vi, List.lookup rv.name (singleHdf5ToZarr file path thr loc).vars = some vi ∧
      List.lookup c.coord vi.chunks = some (buildChunkRef file path thr c) ∧
      ((buildChunkRef file path thr c).hasInline = true ↔ c.length ≤ thr) ∧
      ((buildChunkRef file path thr c).hasByteRange = true ↔ thr < c.length) ∧
      (buildChunkRef file path thr c).hasInline
        = !(buildChunkRef file path thr c).hasByteRange ∧
      (c.length ≤ thr →
        buildChunkRef file path thr c
          = ChunkRef.inlineValue (sliceBytes file c.offset c.length)) ∧
      (thr < c.length →
        buildChunkRef file path thr c = ChunkRef.byteRange path c.offset c.length ∧
        (singleHdf5ToZarr file path thr loc).resolve rv.name c.coord =
          .ok (.byteRange path c.offset c.length)) := by
  have hkeys : ((loc.vars.map (fun rv =>
      ((rv.name : String),
       ({ meta := rv.meta
          chunks := rv.chunks.map (fun c =>
            (c.coord, buildChunkRef file path thr c)) } : VariableIndex)))).map Prod.fst)
      = loc.vars.map RawVariable.name := by
    simp [List.map_map, Function.comp]
  have hvlk : List.lookup rv.name (singleHdf5ToZarr file path thr loc).vars
      = some { meta := rv.meta
               chunks := rv.chunks.map (fun c =>
                 (c.coord, buildChunkRef file path thr c)) } :=
    lookup_eq_some_of_mem_nodup (List.mem_map_of_mem _ hrv) (by
      show ((loc.vars.map _).map Prod.fst).Nodup
      rw [hkeys]
      exact hnames)
  have hck : ((rv.chunks.map (fun c =>
      (c.coord, buildChunkRef file path thr c))).map Prod.fst)
      = rv.chunks.map RawChunk.coord := by
    simp [List.map_map, Function.comp]
  have hclk : List.lookup c.coord (rv.chunks.map (fun c =>
      (c.coord, buildChunkRef file path thr c))) = some (buildChunkRef file path thr c) :=
    lookup_eq_some_of_mem_nodup (List.mem_map_of_mem _ hc)
      (by rw [hck]; exact hcoords)
  refine ⟨_, hvlk, hclk, ?_, ?_, ?_, ?_, ?_⟩
  · by_cases hle : c.length ≤ thr <;>
      simp [buildChunkRef, hle, ChunkRef.hasInline, ChunkRef.hasByteRange] <;>
      omega
  · by_cases hle : c.length ≤ thr <;>
      simp [buildChunkRef, hle, ChunkRef.hasInline, ChunkRef.hasByteRange] <;>
      omega
  · by_cases hle : c.length ≤ thr <;>
      simp [buildChunkRef, hle, ChunkRef.hasInline, ChunkRef.hasByteRange] <;>
      omega
  · intro hle
    unfold buildChunkRef
    rw [if_pos hle]
  · intro hgt
    have hle : ¬ c.length ≤ thr := by omega
    have hbr : buildChunkRef file path thr c = ChunkRef.byteRange path c.offset c.length := by
      unfold buildChunkRef
      rw [if_neg hle]
    refine ⟨hbr, ?_⟩
    unfold FileIndex.resolve resolveVars
    rw [hvlk]
    dsimp only
    rw [if_pos hg, hclk, hbr]
    rfl

theorem C1_builder_inline_dichotomy_witness :
    ((exLoc.vars.map RawVariable.name).Nodup ∧
     exRawV ∈ exLoc.vars ∧
     (exRawV.chunks.map RawChunk.coord).Nodup ∧
     exChunkBig ∈ exRawV.chunks ∧
     inGrid exChunkBig.coord (gridShape exRawV.meta) = true) ∧
    (∃ vi, List.lookup exRawV.name (singleHdf5ToZarr exFile "f.nc" 5 exLoc).vars = some vi ∧
      List.lookup exChunkBig.coord vi.chunks
        = some (buildChunkRef exFile "f.nc" 5 exChunkBig) ∧
      ((buildChunkRef exFile "f.nc" 5 exChunkBig).hasInline = true
        ↔ exChunkBig.length ≤ 5) ∧
      ((buildChunkRef exFile "f.nc" 5 exChunkBig).hasByteRange = true
        ↔ 5 < exChunkBig.length) ∧
      (buildChunkRef exFile "f.nc" 5 exChunkBig).hasInline
        = !(buildChunkRef exFile "f.nc" 5 exChunkBig).hasByteRange ∧
      (exChunkBig.length ≤ 5 →
        buildChunkRef exFile "f.nc" 5 exChunkBig
          = ChunkRef.inlineValue (sliceBytes exFile exChunkBig.offset exChunkBig.length)) ∧
      (5 < exChunkBig.length →
        buildChunkRef exFile "f.nc" 5 exChunkBig
          = ChunkRef.byteRange "f.nc" exChunkBig.offset exChunkBig.length ∧
        (singleHdf5ToZarr exFile "f.nc" 5 exLoc).resolve exRawV.name exChunkBig.coord =
          .ok (.byteRange "f.nc" exChunkBig.offset exChunkBig.length))) :=
  ⟨⟨by decide, by decide, by decide, by decide, by decide⟩,
   C1_builder_inline_dichotomy exFile "f.nc" 5 exLoc (by decide) exRawV (by decide)
     (by decide) exChunkBig (by decide) (by decide)⟩

/-- C8: against any variable table holding the requested variable, the Virtual
Reader fails with coordinateOutOfRange exactly when the requested chunk
coordinate lies outside the variable's chunk grid, and with chunkNotFound
exactly when the coordinate is inside the grid but unpopulated; in particular
requesting coordinate (5,) from a variable whose grid has size 3 along its
axis yields coordinateOutOfRange, never chunkNotFound. -/
theorem C8_reader_error_taxonomy (vars : List (String × VariableIndex))
    (name : String) (coord : List Nat) (vi : VariableIndex)
    (hv : List.lookup name vars = some vi) :
    (resolveVars vars name coord = .error (.coordinateOutOfRange name coord)
      ↔ inGrid coord (gridShape vi.meta) = false) ∧
    (resolveVars vars name coord = .error (.chunkNotFound name coord)
      ↔ (inGrid coord (gridShape vi.meta) = true ∧
         List.lookup coord vi.chunks = none)) ∧
    resolveVars exGridVars "v" [5] = .error (.coordinateOutOfRange "v" [5]) := by
  refine ⟨?_, ?_, by decide⟩
  · by_cases hg : inGrid coord (gridShape vi.meta) = true
    · cases hlk : List.lookup coord vi.chunks with
      | some ref => simp [resolveVars, hv, hg, hlk]
      | none => simp [resolveVars, hv, hg, hlk]
    · have hg2 : inGrid coord (gridShape vi.meta) = false := by
        revert hg
        cases inGrid coord (gridShape vi.meta) <;> simp
      simp [resolveVars, hv, hg2]
  · by_cases hg : inGrid coord (gridShape vi.meta) = true
    · cases hlk : List.lookup coord vi.chunks with
      | some ref => simp [resolveVars, hv, hg, hlk]
      | none => simp [resolveVars, hv, hg, hlk]
    · have hg2 : inGrid coord (gridShape vi.meta) = false := by
        revert hg
        cases inGrid coord (gridShape vi.meta) <;> simp
      simp [resolveVars, hv, hg2]

theorem C8_reader_error_taxonomy_witness :
    List.lookup "v" exGridVars = some exGridVI ∧
    ((resolveVars exGridVars "v" [5] = .error (.coordinateOutOfRange "v" [5])
        ↔ inGrid [5] (gridShape exGridVI.meta) = false) ∧
     (resolveVars exGridVars "v" [5] = .error (.chunkNotFound "v" [5])
        ↔ (inGrid [5] (gridShape exGridVI.meta) = true ∧
           List.lookup [5] exGridVI.chunks = none)) ∧
     resolveVars exGridVars "v" [5] = .error (.coordinateOutOfRange "v" [5])) :=
  ⟨by decide, C8_reader_error_taxonomy exGridVars "v" [5] exGridVI (by decide)⟩

theorem decodeNat_encodeNat (n : Nat) : decodeNat (encodeNat n) = some n := by
  simp [decodeNat, encodeNat]

theorem decodeInt_encodeInt (n : Int) : decodeInt (encodeInt n) = some n := rfl

theorem decodeString_encodeString (s : String) :
    decodeString (encodeString s) = some s := rfl

theorem decodeListAux_roundtrip {α : Type} (f : Doc → Option α) (g : α → Doc)
    (h : ∀ a, f (g a) = some a) :
    ∀ l : List α, decodeListAux f (l.map g) = some l := by
  intro l
  induction l with
  | nil => rfl
  | cons a l ih => simp [decodeListAux, h, ih]

theorem decodeList_encodeList {α : Type} (f : Doc → Option α) (g : α → Doc)
    (h : ∀ a, f (g a) = some a) (l : List α) :
    decodeList f (encodeList g l) = some l := by
  simp [decodeList, encodeList, decodeListAux_roundtrip f g h]

theorem decodeOption_encodeOption {α : Type} (f : Doc → Option α) (g : α → Doc)
    (h : ∀ a, f (g a) = some a) :
    ∀ o : Option α, decodeOption f (encodeOption g o) = some o
  | none => rfl
  | some a => by simp [decodeOption, encodeOption, h a]

theorem decodePair_encodePair {α β : Type} (fd : Doc → Option α) (gd : Doc → Option β)
    (fe : α → Doc) (ge : β → Doc)
    (hf : ∀ a, fd (fe a) = some a) (hg : ∀ b, gd (ge b) = some b)
    (p : α × β) : decodePair fd gd (encodePair fe ge p) = some p := by
  simp [decodePair, encodePair, hf, hg]

theorem decodeChunkRef_encodeChunkRef (r : ChunkRef) :
    decodeChunkRef (encodeChunkRef r) = some r := by
  cases r with
  | inlineValue v =>
    simp [encodeChunkRef, decodeChunkRef,
          decodeList_encodeList decodeNat encodeNat decodeNat_encodeNat]
  | byteRange p o l =>
    simp [encodeChunkRef, decodeChunkRef, decodeNat_encodeNat]

theorem decodeVarMeta_encodeVarMeta (m : VarMeta) :
    decodeVarMeta (encodeVarMeta m) = some m := by
  simp [encodeVarMeta, decodeVarMeta,
        decodeList_encodeList decodeString encodeString decodeString_encodeString,
        decodeList_encodeList decodeNat encodeNat decodeNat_encodeNat,
        decodeOption_encodeOption decodeInt encodeInt decodeInt_encodeInt,
        decodeOption_encodeOption decodeString encodeString decodeString_encodeString,
        decodeList_encodeList (decodePair decodeString decodeString)
          (encodePair encodeString encodeString)
          (decodePair_encodePair decodeString decodeString encodeString encodeString
            decodeString_encodeString decodeString_encodeString)]

theorem decodeVariableIndex_encodeVariableIndex (vi : VariableIndex) :
    decodeVariableIndex (encodeVariableIndex vi) = some vi := by
  simp [encodeVariableIndex, decodeVariableIndex, decodeVarMeta_encodeVarMeta,
        decodeList_encodeList (decodePair (decodeList decodeNat) decodeChunkRef)
          (encodePair (encodeList encodeNat) encodeChunkRef)
          (decodePair_encodePair (decodeList decodeNat) decodeChunkRef
            (encodeList encodeNat) encodeChunkRef
            (decodeList_encodeList decodeNat encodeNat decodeNat_encodeNat)
            decodeChunkRef_encodeChunkRef)]

theorem decodeCombinedIndex_encodeCombinedIndex (ci : CombinedIndex) :
    decodeCombinedIndex (encodeCombinedIndex ci) = some ci := by
  simp [encodeCombinedIndex, decodeCombinedIndex, decodeNat_encodeNat,
        decodeList_encodeList (decodePair decodeString decodeNat)
          (encodePair encodeString encodeNat)
          (decodePair_encodePair decodeString decodeNat encodeString encodeNat
            decodeString_encodeString decodeNat_encodeNat),
        decodeList_encodeList (decodePair decodeString decodeString)
          (encodePair encodeString encodeString)
          (decodePair_encodePair decodeString decodeString encodeString encodeString
            decodeString_encodeString decodeString_encodeString),
        decodeList_encodeList (decodePair decodeString decodeVariableIndex)
          (encodePair encodeString encodeVariableIndex)
          (decodePair_encodePair decodeString decodeVariableIndex
            encodeString encodeVariableIndex
            decodeString_encodeString decodeVariableIndex_encodeVariableIndex)]

/-- C4: serializing a CombinedIndex to its plaintext structured-document form
and deserializing it back is lossless: it yields a CombinedIndex on which
every (variable, chunk coordinate) pair resolves through the Virtual Reader
to the identical inline-or-byterange result as the original, and in fact the
round trip restores every field exactly. -/
theorem C4_serialization_roundtrip (ci : CombinedIndex) :
    ∃ ci2, decodeCombinedIndex (encodeCombinedIndex ci) = some ci2 ∧
      (∀ name coord, ci2.resolve name coord = ci.resolve name coord) ∧
      ci2 = ci :=
  ⟨ci, decodeCombinedIndex_encodeCombinedIndex ci, fun _ _ => rfl, rfl⟩

theorem foldl_min_facts : ∀ (l : List Int) (a : Int),
    (l.foldl min a = a ∨ l.foldl min a ∈ l) ∧ l.foldl min a ≤ a ∧
      ∀ b ∈ l, l.foldl min a ≤ b := by
  intro l
  induction l with
  | nil =>
    intro a
    exact ⟨Or.inl rfl, le_refl a, fun b hb => absurd hb (List.not_mem_nil b)⟩
  | cons x l ih =>
    intro a
    simp only [List.foldl_cons]
    obtain ⟨hmem, hle, hall⟩ := ih (min a x)
    refine ⟨?_, ?_, ?_⟩
    · rcases hmem with he | hm
      · rcases le_total a x with hax | hxa
        · left
          rw [he, min_eq_left hax]
        · right
          rw [he, min_eq_right hxa]
          exact List.mem_cons_self _ _
      · right
        exact List.mem_cons_of_mem _ hm
    · exact le_trans hle (min_le_left a x)
    · intro b hb
      rcases List.mem_cons.mp hb with rfl | hbm
      · exact le_trans hle (min_le_right a b)
      · exact hall b hbm

theorem foldl_max_facts : ∀ (l : List Int) (a : Int),
    (l.foldl max a = a ∨ l.foldl max a ∈ l) ∧ a ≤ l.foldl max a ∧
      ∀ b ∈ l, b ≤ l.foldl max a := by
  intro l
  induction l with
  | nil =>
    intro a
    exact ⟨Or.inl rfl, le_refl a, fun b hb => absurd hb (List.not_mem_nil b)⟩
  | cons x l ih =>
    intro a
    simp only [List.foldl_cons]
    obtain ⟨hmem, hle, hall⟩ := ih (max a x)
    refine ⟨?_, ?_, ?_⟩
    · rcases hmem with he | hm
      · rcases le_total a x with hax | hxa
        · right
          rw [he, max_eq_right hax]
          exact List.mem_cons_self _ _
        · left
          rw [he, max_eq_left hxa]
      · right
        exact List.mem_cons_of_mem _ hm
    · exact le_trans (le_max_left a x) hle
    · intro b hb
      rcases List.mem_cons.mp hb with rfl | hbm
      · exact le_trans (le_max_right a b) hle
      · exact hall b hbm

theorem listMin_facts {l : List Int} {a : Int} (h : listMin l = some a) :
    a ∈ l ∧ ∀ b ∈ l, a ≤ b := by
  cases l with
  | nil => cases h
  | cons x xs =>
    have ha : a = xs.foldl min x := (Option.some.inj h).symm
    obtain ⟨hmem, hle, hall⟩ := foldl_min_facts xs x
    subst ha
    constructor
    · rcases hmem with he | hm
      · rw [he]
        exact List.mem_cons_self _ _
      · exact List.mem_cons_of_mem _ hm
    · intro b hb
      rcases List.mem_cons.mp hb with rfl | hbm
      · exact hle
      · exact hall b hbm

theorem listMax_facts {l : List Int} {a : Int} (h : listMax l = some a) :
    a ∈ l ∧ ∀ b ∈ l, b ≤ a := by
  cases l with
  | nil => cases h
  | cons x xs =>
    have ha : a = xs.foldl max x := (Option.some.inj h).symm
    obtain ⟨hmem, hle, hall⟩ := foldl_max_facts xs x
    subst ha
    constructor
    · rcases hmem with he | hm
      · rw [he]
        exact List.mem_cons_self _ _
      · exact List.mem_cons_of_mem _ hm
    · intro b hb
      rcases List.mem_cons.mp hb with rfl | hbm
      · exact hle
      · exact hall b hbm

theorem listMin_isSome {l : List Int} (h : l ≠ []) : ∃ a, listMin l = some a := by
  cases l with
  | nil => exact absurd rfl h
  | cons x xs => exact ⟨xs.foldl min x, rfl⟩

theorem listMax_isSome {l : List Int} (h : l ≠ []) : ∃ a, listMax l = some a := by
  cases l with
  | nil => exact absurd rfl h
  | cons x xs => exact ⟨xs.foldl max x, rfl⟩

theorem maskSelect_mem : ∀ (ms : List Bool) (vs : List Int) (k : Nat),
    k < ms.length → k < vs.length → ms.getD k false = true →
    vs.getD k 0 ∈ maskSelect ms vs := by
  intro ms
  induction ms with
  | nil =>
    intro vs k hk
    exact absurd hk (by simp)
  | cons b ms ih =>
    intro vs k hk1 hk2 hmk
    cases vs with
    | nil => exact absurd hk2 (by simp)
    | cons v vs =>
      cases k with
      | zero =>
        simp only [List.getD_cons_zero] at hmk ⊢
        subst hmk
        simp [maskSelect]
      | succ k =>
        simp only [List.getD_cons_succ] at hmk ⊢
        have hk1s : k < ms.length := by
          simp only [List.length_cons] at hk1
          omega
        have hk2s : k < vs.length := by
          simp only [List.length_cons] at hk2
          omega
        have hrec := ih vs k hk1s hk2s hmk
        cases b with
        | true =>
          simp only [maskSelect, if_true]
          exact List.mem_cons_of_mem _ hrec
        | false =>
          simp only [maskSelect, Bool.false_eq_true, if_false]
          exact hrec

theorem selectGrid_mem : ∀ (mss : List (List Bool)) (gss : List (List Int)) (j : Nat)
    (v : Int), j < mss.length → j < gss.length →
    v ∈ maskSelect (mss.getD j []) (gss.getD j []) →
    v ∈ selectGrid mss gss := by
  intro mss
  induction mss with
  | nil =>
    intro gss j v hj
    exact absurd hj (by simp)
  | cons m mss ih =>
    intro gss j v hj1 hj2 hv
    cases gss with
    | nil => exact absurd hj2 (by simp)
    | cons g gss =>
      cases j with
      | zero =>
        simp only [List.getD_cons_zero] at hv
        simp only [selectGrid]
        exact List.mem_append_left _ hv
      | succ j =>
        simp only [List.getD_cons_succ] at hv
        have hj1s : j < mss.length := by
          simp only [List.length_cons] at hj1
          omega
        have hj2s : j < gss.length := by
          simp only [List.length_cons] at hj2
          omega
        simp only [selectGrid]
        exact List.mem_append_right _ (ih gss j v hj1s hj2s hv)

theorem maskSelect_empty : ∀ (ms : List Bool) (vs : List Int),
    (∀ b ∈ ms, b = false) → maskSelect ms vs = [] := by
  intro ms
  induction ms with
  | nil => intro vs _; cases vs <;> rfl
  | cons b ms ih =>
    intro vs h
    cases vs with
    | nil => rfl
    | cons v vs =>
      have hb := h b (List.mem_cons_self _ _)
      subst hb
      simp only [maskSelect, Bool.false_eq_true, if_false]
      exact ih vs (fun b2 hb2 => h b2 (List.mem_cons_of_mem _ hb2))

theorem selectGrid_empty : ∀ (mss : List (List Bool)) (gss : List (List Int)),
    (∀ row ∈ mss, ∀ b ∈ row, b = false) → selectGrid mss gss = [] := by
  intro mss
  induction mss with
  | nil => intro gss _; cases gss <;> rfl
  | cons m mss ih =>
    intro gss h
    cases gss with
    | nil => rfl
    | cons g gss =>
      simp only [selectGrid]
      rw [maskSelect_empty m g (h m (List.mem_cons_self _ _)),
          ih gss (fun row hrow => h row (List.mem_cons_of_mem _ hrow))]
      rfl

theorem boxMask_getD (ds : Dataset) (lat1 lat2 lon1 lon2 : Int) (j : Nat)
    (hj1 : j < ds.latitude.length) (hj2 : j < ds.longitude.length) :
    (boxMask ds lat1 lat2 lon1 lon2).getD j [] =
      maskRow lat1 lat2 lon1 lon2 (ds.latitude.getD j []) (ds.longitude.getD j []) := by
  unfold boxMask
  have hl : j < (List.zipWith (maskRow lat1 lat2 lon1 lon2)
      ds.latitude ds.longitude).length := by
    rw [List.length_zipWith]
    exact lt_min_iff.mpr ⟨hj1, hj2⟩
  rw [List.getD_eq_getElem _ _ hl, List.getElem_zipWith,
      List.getD_eq_getElem _ _ hj1, List.getD_eq_getElem _ _ hj2]

theorem maskRow_getD (lat1 lat2 lon1 lon2 : Int) (latRow lonRow : List Int) (i : Nat)
    (hi1 : i < latRow.length) (hi2 : i < lonRow.length) :
    (maskRow lat1 lat2 lon1 lon2 latRow lonRow).getD i false =
      inBoxPoint lat1 lat2 lon1 lon2 (latRow.getD i 0) (lonRow.getD i 0) := by
  unfold maskRow
  have hl : i < (List.zipWith (inBoxPoint lat1 lat2 lon1 lon2) latRow lonRow).length := by
    rw [List.length_zipWith]
    exact lt_min_iff.mpr ⟨hi1, hi2⟩
  rw [List.getD_eq_getElem _ _ hl, List.getElem_zipWith,
      List.getD_eq_getElem _ _ hi1, List.getD_eq_getElem _ _ hi2]

theorem meshgridX_getD (ds : Dataset) (j : Nat) (hj : j < ds.y.length) :
    (meshgridX ds).getD j [] = ds.x := by
  unfold meshgridX
  have hl : j < (ds.y.map (fun _ => ds.x)).length := by
    rw [List.length_map]
    exact hj
  rw [List.getD_eq_getElem _ _ hl, List.getElem_map]

theorem meshgridY_getD (ds : Dataset) (j : Nat) (hj : j < ds.y.length) :
    (meshgridY ds).getD j [] = ds.x.map (fun _ => ds.y.getD j 0) := by
  unfold meshgridY
  have hl : j < (ds.y.map (fun yv => ds.x.map (fun _ => yv))).length := by
    rw [List.length_map]
    exact hj
  rw [List.getD_eq_getElem _ _ hl, List.getElem_map, List.getD_eq_getElem _ _ hj]

theorem boxMask_length (ds : Dataset) (lat1 lat2 lon1 lon2 : Int) :
    (boxMask ds lat1 lat2 lon1 lon2).length = min ds.latitude.length ds.longitude.length := by
  unfold boxMask
  rw [List.length_zipWith]

theorem maskRow_length (lat1 lat2 lon1 lon2 : Int) (latRow lonRow : List Int) :
    (maskRow lat1 lat2 lon1 lon2 latRow lonRow).length = min latRow.length lonRow.length := by
  unfold maskRow
  rw [List.length_zipWith]

/-- C9: when at least one grid point of the dataset falls inside the
requested latitude/longitude box, get_xy_from_latlon returns some
(x1, x2, y1, y2) where x1/x2 are the minimum/maximum of the meshgridded x
values at exactly the in-box grid points and y1/y2 likewise for y; in
particular x1 is at most x2 and y1 is at most y2. -/
theorem C9_get_xy_in_box (ds : Dataset) (lat1 lat2 lon1 lon2 : Int)
    (hlat : ds.latitude.length = ds.y.length)
    (hlon : ds.longitude.length = ds.y.length)
    (hlatrow : ∀ r ∈ ds.latitude, r.length = ds.x.length)
    (hlonrow : ∀ r ∈ ds.longitude, r.length = ds.x.length)
    (hpt : ∃ j, j < ds.y.length ∧ ∃ i, i < ds.x.length ∧
      inBoxPoint lat1 lat2 lon1 lon2 ((ds.latitude.getD j []).getD i 0)
        ((ds.longitude.getD j []).getD i 0) = true) :
    ∃ x1 x2 y1 y2,
      get_xy_from_latlon ds (lat1, lat2) (lon1, lon2) = some (x1, x2, y1, y2) ∧
      (x1 ∈ selectGrid (boxMask ds lat1 lat2 lon1 lon2) (meshgridX ds) ∧
       x2 ∈ selectGrid (boxMask ds lat1 lat2 lon1 lon2) (meshgridX ds) ∧
       y1 ∈ selectGrid (boxMask ds lat1 lat2 lon1 lon2) (meshgridY ds) ∧
       y2 ∈ selectGrid (boxMask ds lat1 lat2 lon1 lon2) (meshgridY ds)) ∧
      (∀ v ∈ selectGrid (boxMask ds lat1 lat2 lon1 lon2) (meshgridX ds),
        x1 ≤ v ∧ v ≤ x2) ∧
      (∀ v ∈ selectGrid (boxMask ds lat1 lat2 lon1 lon2) (meshgridY ds),
        y1 ≤ v ∧ v ≤ y2) ∧
      x1 ≤ x2 ∧ y1 ≤ y2 := by
  obtain ⟨j, hj, i, hi, hbox⟩ := hpt
  have hjlat : j < ds.latitude.length := by omega
  have hjlon : j < ds.longitude.length := by omega
  have hlatj : (ds.latitude.getD j []).length = ds.x.length := by
    apply hlatrow
    rw [List.getD_eq_getElem _ _ hjlat]
    exact List.getElem_mem hjlat
  have hlonj : (ds.longitude.getD j []).length = ds.x.length := by
    apply hlonrow
    rw [List.getD_eq_getElem _ _ hjlon]
    exact List.getElem_mem hjlon
  have hmaskj : (boxMask ds lat1 lat2 lon1 lon2).getD j [] =
      maskRow lat1 lat2 lon1 lon2 (ds.latitude.getD j []) (ds.longitude.getD j []) :=
    boxMask_getD ds lat1 lat2 lon1 lon2 j hjlat hjlon
  have hrowi : ((boxMask ds lat1 lat2 lon1 lon2).getD j []).getD i false = true := by
    rw [hmaskj, maskRow_getD lat1 lat2 lon1 lon2 _ _ i (by omega) (by omega)]
    exact hbox
  have hrowlen : i < ((boxMask ds lat1 lat2 lon1 lon2).getD j []).length := by
    rw [hmaskj, maskRow_length]
    rw [hlatj, hlonj, Nat.min_self]
    exact hi
  have hmasklen : j < (boxMask ds lat1 lat2 lon1 lon2).length := by
    rw [boxMask_length, hlat, hlon, Nat.min_self]
    exact hj
  have hmxlen : j < (meshgridX ds).length := by
    unfold meshgridX
    rw [List.length_map]
    exact hj
  have hmylen : j < (meshgridY ds).length := by
    unfold meshgridY
    rw [List.length_map]
    exact hj
  have hxmem : ds.x.getD i 0 ∈
      selectGrid (boxMask ds lat1 lat2 lon1 lon2) (meshgridX ds) := by
    apply selectGrid_mem _ _ j _ hmasklen hmxlen
    rw [meshgridX_getD ds j hj]
    exact maskSelect_mem _ _ i hrowlen hi hrowi
  have hymem : ((ds.x.map (fun _ => ds.y.getD j 0)).getD i 0) ∈
      selectGrid (boxMask ds lat1 lat2 lon1 lon2) (meshgridY ds) := by
    apply selectGrid_mem _ _ j _ hmasklen hmylen
    rw [meshgridY_getD ds j hj]
    refine maskSelect_mem _ _ i hrowlen ?_ hrowi
    rw [List.length_map]
    exact hi
  have hxne : selectGrid (boxMask ds lat1 lat2 lon1 lon2) (meshgridX ds) ≠ [] :=
    List.ne_nil_of_mem hxmem
  have hyne : selectGrid (boxMask ds lat1 lat2 lon1 lon2) (meshgridY ds) ≠ [] :=
    List.ne_nil_of_mem hymem
  obtain ⟨x1, hx1⟩ := listMin_isSome hxne
  obtain ⟨x2, hx2⟩ := listMax_isSome hxne
  obtain ⟨y1, hy1⟩ := listMin_isSome hyne
  obtain ⟨y2, hy2⟩ := listMax_isSome hyne
  obtain ⟨hx1m, hx1le⟩ := listMin_facts hx1
  obtain ⟨hx2m, hx2ge⟩ := listMax_facts hx2
  obtain ⟨hy1m, hy1le⟩ := listMin_facts hy1
  obtain ⟨hy2m, hy2ge⟩ := listMax_facts hy2
  refine ⟨x1, x2, y1, y2, ?_, ⟨hx1m, hx2m, hy1m, hy2m⟩,
    fun v hv => ⟨hx1le v hv, hx2ge v hv⟩,
    fun v hv => ⟨hy1le v hv, hy2ge v hv⟩,
    hx1le _ hx2m, hy1le _ hy2m⟩
  simp only [get_xy_from_latlon]
  rw [hx1, hx2, hy1, hy2]

theorem C9_get_xy_in_box_witness :
    (exDS.latitude.length = exDS.y.length ∧
     exDS.longitude.length = exDS.y.length ∧
     (∀ r ∈ exDS.latitude, r.length = exDS.x.length) ∧
     (∀ r ∈ exDS.longitude, r.length = exDS.x.length) ∧
     (∃ j, j < exDS.y.length ∧ ∃ i, i < exDS.x.length ∧
       inBoxPoint 0 50 0 50 ((exDS.latitude.getD j []).getD i 0)
         ((exDS.longitude.getD j []).getD i 0) = true)) ∧
    (∃ x1 x2 y1 y2,
      get_xy_from_latlon exDS (0, 50) (0, 50) = some (x1, x2, y1, y2) ∧
      (x1 ∈ selectGrid (boxMask exDS 0 50 0 50) (meshgridX exDS) ∧
       x2 ∈ selectGrid (boxMask exDS 0 50 0 50) (meshgridX exDS) ∧
       y1 ∈ selectGrid (boxMask exDS 0 50 0 50) (meshgridY exDS) ∧
       y2 ∈ selectGrid (boxMask exDS 0 50 0 50) (meshgridY exDS)) ∧
      (∀ v ∈ selectGrid (boxMask exDS 0 50 0 50) (meshgridX exDS),
        x1 ≤ v ∧ v ≤ x2) ∧
      (∀ v ∈ selectGrid (boxMask exDS 0 50 0 50) (meshgridY exDS),
        y1 ≤ v ∧ v ≤ y2) ∧
      x1 ≤ x2 ∧ y1 ≤ y2) :=
  ⟨⟨by decide, by decide, by decide, by decide,
    ⟨0, by decide, 0, by decide, by decide⟩⟩,
   C9_get_xy_in_box exDS 0 50 0 50 (by decide) (by decide) (by decide) (by decide)
     ⟨0, by decide, 0, by decide, by decide⟩⟩

/-- C10: when no grid point satisfies both the latitude and the longitude
constraint, the selection is empty and get_xy_from_latlon returns none (the
Python source raises there, from min() applied to an empty selection, so the
total embedding is Option-valued and this branch yields no 4-tuple). -/
theorem C10_get_xy_empty (ds : Dataset) (lat1 lat2 lon1 lon2 : Int)
    (hempty : ∀ j, j < ds.latitude.length →
      ∀ i, i < (ds.latitude.getD j []).length →
        inBoxPoint lat1 lat2 lon1 lon2 ((ds.latitude.getD j []).getD i 0)
          ((ds.longitude.getD j []).getD i 0) = false) :
    get_xy_from_latlon ds (lat1, lat2) (lon1, lon2) = none := by
  have hmask : ∀ row ∈ boxMask ds lat1 lat2 lon1 lon2, ∀ b ∈ row, b = false := by
    intro row hrow b hb
    obtain ⟨j, hjlen, hje⟩ := List.mem_iff_getElem.mp hrow
    obtain ⟨i, hilen, hie⟩ := List.mem_iff_getElem.mp hb
    have hjmin : j < min ds.latitude.length ds.longitude.length := by
      rw [← boxMask_length ds lat1 lat2 lon1 lon2]
      exact hjlen
    have hjlat : j < ds.latitude.length := (lt_min_iff.mp hjmin).1
    have hjlon : j < ds.longitude.length := (lt_min_iff.mp hjmin).2
    have hrowe : row = (boxMask ds lat1 lat2 lon1 lon2).getD j [] := by
      rw [List.getD_eq_getElem _ _ hjlen, hje]
    have hrow2 : row =
        maskRow lat1 lat2 lon1 lon2 (ds.latitude.getD j []) (ds.longitude.getD j []) := by
      rw [hrowe, boxMask_getD ds lat1 lat2 lon1 lon2 j hjlat hjlon]
    have hilat : i < (ds.latitude.getD j []).length := by
      have h2 := hilen
      rw [hrow2, maskRow_length] at h2
      exact (lt_min_iff.mp h2).1
    have hilon : i < (ds.longitude.getD j []).length := by
      have h2 := hilen
      rw [hrow2, maskRow_length] at h2
      exact (lt_min_iff.mp h2).2
    have hbval : b = row.getD i false := by
      rw [List.getD_eq_getElem _ _ hilen, hie]
    rw [hbval, hrow2, maskRow_getD lat1 lat2 lon1 lon2 _ _ i hilat hilon]
    exact hempty j hjlat i hilat
  have hx : selectGrid (boxMask ds lat1 lat2 lon1 lon2) (meshgridX ds) = [] :=
    selectGrid_empty _ _ hmask
  simp only [get_xy_from_latlon]
  rw [hx]
  rfl

theorem C10_get_xy_empty_witness :
    (∀ j, j < exDS.latitude.length →
      ∀ i, i < (exDS.latitude.getD j []).length →
        inBoxPoint 100 200 100 200 ((exDS.latitude.getD j []).getD i 0)
          ((exDS.longitude.getD j []).getD i 0) = false) ∧
    get_xy_from_latlon exDS (100, 200) (100, 200) = none :=
  ⟨by decide, C10_get_xy_empty exDS 100 200 100 200 (by decide)⟩
